import Mathlib

/-!
Verification of the Brightly OS status-transition and priority-ordering engine.

The definitions below are a shallow embedding of the JavaScript source:
* `src/lib/items.js` — the items data layer (status transitions, reorder
  persistence, item creation, field updates, ref-code generation);
* the `useItems` hook — the client-side projection cache (its `reorder`
  optimistic update);
* `src/components/ItemBoard.jsx` — `handleReorder` (drag-and-drop reinsertion).

The backing store (Supabase) is modelled as a `List Item`:
* `update(...).eq(id)` applies the patch to every row whose `id`
  matches; `.select().single()` then errors unless exactly one row matched;
* `.eq(status).maybeSingle()` returns `none` for zero rows, the row
  for one, and errors for two or more;
* `order by priority_order asc/desc limit 1` projected to `priority_order`
  is the minimum / maximum of that column;
* a write that the store rejects leaves the store unchanged.  Store-level
  write failures are injected through explicit `Option String` fault
  parameters (`none` = the write succeeds), and `new Date().toISOString()`
  is threaded in as an explicit `now : String` argument, so every function
  is a pure function of its inputs.
-/

/-- An item row, mirroring the fields of the `items` table that the engine
reads or writes. -/
structure Item where
  id : String
  title : String
  context : String
  status : String
  priority_order : Int
  zone_id : Option String := none
  notes : Option String := none
  due_date : Option String := none
  completed_at : Option String := none
  ref_code : String := ""
  created_at : String := ""
  updated_at : String := ""
deriving DecidableEq, Repr

/-- Error outcomes.  `storeFailure` carries a store-level error message
(the `error` object a rejected Supabase call returns); `validation` carries
the messages the data layer itself builds; `notFound` / `multipleRows` model
`.single()` / `.maybeSingle()` row-count errors.  `PartialTransitionFailure`
is the error kind named by the specification; it is present so that
statements about it can be made, and no function below ever produces it. -/
inductive Err where
  | storeFailure (msg : String)
  | validation (msg : String)
  | notFound
  | multipleRows
  | PartialTransitionFailure
deriving DecidableEq, Repr

/-- Model of `Object.values(STATUSES)` from `items.js`. -/
def STATUS_VALUES : List String := ["waiting", "in_progress", "current", "done"]

/-- Model of `Object.values(CONTEXTS)` from `items.js`. -/
def CONTEXT_VALUES : List String := ["objectives", "research", "needs", "reminders"]

/-- Model of `supabase.from(items).update(f).eq(id).select().single()`:
the patch `f` is applied to every row whose id matches; the call succeeds
iff exactly one row matched, returning that updated row.  The write is
applied to the store regardless of the row count the final `.single()`
reports. -/
def updateById (db : List Item) (id : String) (f : Item → Item) :
    Except Err Item × List Item :=
  let db2 := db.map fun it => if it.id = id then f it else it
  match db2.filter fun it => it.id = id with
  | [it] => (.ok it, db2)
  | [] => (.error .notFound, db2)
  | _ :: _ :: _ => (.error .multipleRows, db2)

/-- Wrapper: `updateById` behind a fault switch: `some msg` means the store rejected
this write (nothing is applied and the error surfaces). -/
def updateByIdF (fault : Option String) (db : List Item) (id : String)
    (f : Item → Item) : Except Err Item × List Item :=
  match fault with
  | some msg => (.error (.storeFailure msg), db)
  | none => updateById db id f

/-- The select of id and priority_order filtered to status current, via
`maybeSingle()`. -/
def findCurrent (db : List Item) : Except Err (Option Item) :=
  match db.filter fun it => it.status = "current" with
  | [] => .ok none
  | [it] => .ok (some it)
  | _ :: _ :: _ => .error .multipleRows

/-- The select of priority_order filtered to status in_progress, ordered
ascending with `limit(1).maybeSingle()`, projected to
the `priority_order` column: the minimum priority order among `in_progress`
rows, if any. -/
def minInProgressOrder (db : List Item) : Option Int :=
  ((db.filter fun it => it.status = "in_progress").map fun it =>
    it.priority_order).min?

/-- The select of priority_order over all rows, ordered descending with
`limit(1).maybeSingle()`, projected to `priority_order`: the maximum priority order
over all rows, if any. -/
def maxOrder (db : List Item) : Option Int :=
  (db.map fun it => it.priority_order).max?

/-- Injectable store faults for the write sites of one engine call:
the initial current-row lookup, the demotion write, and the final
(promotion or single-status) write. -/
structure Faults where
  findFault : Option String := none
  demoteFault : Option String := none
  writeFault : Option String := none
deriving DecidableEq, Repr

/-- The record `setItemCurrent` / `updateItemStatus` resolve with:
`{ data, error, previousCurrentId }`. -/
structure SetCurrentResult where
  data : Option Item
  error : Option Err
  previousCurrentId : Option String
deriving DecidableEq, Repr

/-- Model of `setItemCurrent(id)` from `items.js`: find the current row (at most one
by I1); if it exists and differs from the target, demote it to
`in_progress` at `min(in_progress priority_order) - 1` (or `1` when no
`in_progress` rows exist); abort if that write fails; then set the target
status of the target row to `current`. -/
def setItemCurrent (faults : Faults) (now : String) (db : List Item)
    (id : String) : SetCurrentResult × List Item :=
  match faults.findFault with
  | some msg => (⟨none, some (.storeFailure msg), none⟩, db)
  | none =>
    match findCurrent db with
    | .error e => (⟨none, some e, none⟩, db)
    | .ok prevOpt =>
      let demoted : Option Err × Option String × List Item :=
        match prevOpt with
        | some prev =>
          if prev.id = id then (none, none, db)
          else
            let newPriorityOrder : Int :=
              match minInProgressOrder db with
              | some m => m - 1
              | none => 1
            match updateByIdF faults.demoteFault db prev.id (fun it =>
                { it with
                    status := "in_progress"
                    priority_order := newPriorityOrder
                    updated_at := now }) with
            | (.error e, db1) => (some e, none, db1)
            | (.ok _, db1) => (none, some prev.id, db1)
        | none => (none, none, db)
      match demoted with
      | (some e, _, db1) => (⟨none, some e, none⟩, db1)
      | (none, previousCurrentId, db1) =>
        match updateByIdF faults.writeFault db1 id (fun it =>
            { it with status := "current", updated_at := now }) with
        | (.error e, db2) => (⟨none, some e, previousCurrentId⟩, db2)
        | (.ok it, db2) => (⟨some it, none, previousCurrentId⟩, db2)

/-- Model of `setItemWaiting(id)` from `items.js`. -/
def setItemWaiting (fault : Option String) (now : String) (db : List Item)
    (id : String) : Except Err Item × List Item :=
  updateByIdF fault db id fun it =>
    { it with status := "waiting", updated_at := now }

/-- Model of `setItemInProgress(id)` from `items.js`. -/
def setItemInProgress (fault : Option String) (now : String) (db : List Item)
    (id : String) : Except Err Item × List Item :=
  updateByIdF fault db id fun it =>
    { it with status := "in_progress", updated_at := now }

/-- Model of `setItemDone(id)` from `items.js`: also stamps `completed_at`. -/
def setItemDone (fault : Option String) (now : String) (db : List Item)
    (id : String) : Except Err Item × List Item :=
  updateByIdF fault db id fun it =>
    { it with status := "done", completed_at := some now, updated_at := now }

/-- Shape of a single-status-write result as `updateItemStatus` spreads it:
`{ ...result, previousCurrentId: null }`. -/
def exceptToResult : Except Err Item → SetCurrentResult
  | .ok it => ⟨some it, none, none⟩
  | .error e => ⟨none, some e, none⟩

/-- Model of `updateItemStatus(id, newStatus)` from `items.js`. -/
def updateItemStatus (faults : Faults) (now : String) (db : List Item)
    (id newStatus : String) : SetCurrentResult × List Item :=
  if ¬ STATUS_VALUES.contains newStatus then
    (⟨none, some (.validation ("Invalid status: " ++ newStatus)), none⟩, db)
  else if newStatus = "current" then
    setItemCurrent faults now db id
  else if newStatus = "done" then
    let r := setItemDone faults.writeFault now db id
    (exceptToResult r.1, r.2)
  else if newStatus = "waiting" then
    let r := setItemWaiting faults.writeFault now db id
    (exceptToResult r.1, r.2)
  else
    let r := setItemInProgress faults.writeFault now db id
    (exceptToResult r.1, r.2)

/-- One entry of the `orderUpdates` argument of `reorderItems`. -/
structure OrderUpdate where
  id : String
  priority_order : Int
deriving DecidableEq, Repr

/-- One `update({ priority_order, updated_at }).eq(id)` call issued by
`reorderItems` (no `.select().single()`, so a zero-row match is not an
error). -/
def applyOrderUpdate (now : String) (db : List Item) (u : OrderUpdate) :
    List Item :=
  db.map fun it =>
    if it.id = u.id then
      { it with priority_order := u.priority_order, updated_at := now }
    else it

/-- Model of `reorderItems(orderUpdates)` from `items.js`: issue one priority-order
update per entry. -/
def reorderItems (now : String) (db : List Item)
    (orderUpdates : List OrderUpdate) : List Item :=
  orderUpdates.foldl (applyOrderUpdate now) db

/-- The optimistic-update half of `useItems.reorder(newOrder)`: renumber the
given sequence `1..N` and make it the new cached item set, returning the
new cache together with the `orderUpdates` sent to `reorderItems`. -/
def useItemsReorder (newOrder : List Item) :
    List Item × List OrderUpdate :=
  let updatedItems := newOrder.enum.map fun p =>
    { p.2 with priority_order := (p.1 : Int) + 1 }
  (updatedItems, updatedItems.map fun it => ⟨it.id, it.priority_order⟩)

/-- A draft passed to `createItem`.  `none` models an absent field; the
JavaScript truthiness checks also treat an empty string as absent. -/
structure Draft where
  title : Option String := none
  context : Option String := none
  ref_code : Option String := none
  notes : Option String := none
  zone_id : Option String := none
  due_date : Option String := none
deriving DecidableEq, Repr

/-- Model of `generateRefCode(context)` from `items.js`.  The random suffix
(`Math.random().toString(36).substring(2, 7).toUpperCase()`) is an external
source of nondeterminism and is passed in as `suffix`. -/
def generateRefCode (context : String) (suffix : String) : String :=
  let pfx : String :=
    if context = "objectives" then "OBJ"
    else if context = "research" then "RES"
    else if context = "needs" then "NED"
    else if context = "reminders" then "REM"
    else "ITM"
  pfx ++ "-" ++ suffix

/-- JavaScript truthiness of an optional string: `undefined`/`null`/`""`
are falsy. -/
def strFalsy : Option String → Bool
  | none => true
  | some s => s = ""

/-- Model of `createItem(item)` from `items.js`.  `newId` stands for the row id the
store generates on insert, `suffix` for the random ref-code suffix. -/
def createItem (now newId suffix : String) (db : List Item)
    (draft : Draft) : Except Err Item × List Item :=
  if strFalsy draft.title ∨ strFalsy draft.context then
    (.error (.validation "title and context are required"), db)
  else
    let context := draft.context.getD ""
    if ¬ CONTEXT_VALUES.contains context then
      (.error (.validation ("Invalid context: " ++ context)), db)
    else
      let nextOrder : Int :=
        (match maxOrder db with
          | some m => m
          | none => 0) + 1
      let newItem : Item :=
        { id := newId
          title := draft.title.getD ""
          context := context
          ref_code :=
            match draft.ref_code with
            | some r => if r = "" then generateRefCode context suffix else r
            | none => generateRefCode context suffix
          notes := draft.notes
          zone_id := draft.zone_id
          due_date := draft.due_date
          status := "waiting"
          priority_order := nextOrder
          created_at := now
          updated_at := now }
      (.ok newItem, db ++ [newItem])

/-- A patch passed to `updateItem`.  The first four fields are the ones the
function copies into `safeUpdates`; the remaining fields model other keys a
caller might include (which the function must ignore).  For nullable
columns the inner `Option` is the value written (`none` = SQL null). -/
structure Patch where
  title : Option String := none
  notes : Option (Option String) := none
  zone_id : Option (Option String) := none
  due_date : Option (Option String) := none
  status : Option String := none
  priority_order : Option Int := none
  context : Option String := none
  completed_at : Option (Option String) := none
deriving DecidableEq, Repr

/-- Model of `updateItem(id, updates)` from `items.js`: copy only
`title, notes, zone_id, due_date` out of the patch, error when none of them
is present, stamp `updated_at`, and write. -/
def updateItem (fault : Option String) (now : String) (db : List Item)
    (id : String) (p : Patch) : Except Err Item × List Item :=
  if p.title = none ∧ p.notes = none ∧ p.zone_id = none ∧ p.due_date = none then
    (.error (.validation "No valid fields to update"), db)
  else
    updateByIdF fault db id fun it =>
      { it with
          title := p.title.getD it.title
          notes := p.notes.getD it.notes
          zone_id := p.zone_id.getD it.zone_id
          due_date := p.due_date.getD it.due_date
          updated_at := now }

/-- Model of `Array.prototype.findIndex`, as an `Option Nat` (`none` models `-1`). -/
def findIndex (p : Item → Bool) : List Item → Option Nat
  | [] => none
  | it :: rest => if p it then some 0 else (findIndex p rest).map (· + 1)

/-- Model of `Array.prototype.splice(start, 0, x)` for a possibly negative `start`:
a negative index counts from the end and is clamped at `0`; an index past
the end is clamped to the length. -/
def spliceInsert (l : List Item) (start : Int) (x : Item) : List Item :=
  let actualStart : Nat :=
    if start < 0 then ((l.length : Int) + start).toNat
    else min start.toNat l.length
  l.insertIdx actualStart x

/-- Model of `boardItems.sort((a, b) => a.priority_order - b.priority_order)`: a
stable sort by priority order. -/
def sortBoard (l : List Item) : List Item :=
  l.insertionSort fun a b => a.priority_order ≤ b.priority_order

/-- Model of `handleReorder(draggedItem, targetItemId, status)` from
`ItemBoard.jsx`: take the status bucket in visual order, remove the dragged
item, splice it back in at the index of the target item (`findIndex`
yielding `-1` when the target is absent), and hand the new order to
`onItemReorder`. -/
def handleReorder (items : List Item) (draggedItem : Item)
    (targetItemId status : String) : List Item :=
  let boardItems := items.filter fun it => it.status = status
  let sorted := sortBoard boardItems
  let withoutDragged := sorted.filter fun it => ¬ it.id = draggedItem.id
  let targetIndex : Int :=
    match findIndex (fun it => it.id = targetItemId) withoutDragged with
    | some k => (k : Int)
    | none => -1
  spliceInsert withoutDragged targetIndex draggedItem

/-- The status-transition operations of the engine, as invoked by callers:
`updateItemStatus` plus the four direct setters. -/
inductive TransitionOp where
  | updateStatus (id newStatus : String)
  | current (id : String)
  | waiting (id : String)
  | inProgress (id : String)
  | done (id : String)
deriving DecidableEq, Repr

/-- Run one transition operation against the store, with the given fault
injection and timestamp, keeping only the resulting store. -/
def applyTransition (faults : Faults) (now : String) (db : List Item) :
    TransitionOp → List Item
  | .updateStatus id s => (updateItemStatus faults now db id s).2
  | .current id => (setItemCurrent faults now db id).2
  | .waiting id => (setItemWaiting faults.writeFault now db id).2
  | .inProgress id => (setItemInProgress faults.writeFault now db id).2
  | .done id => (setItemDone faults.writeFault now db id).2

/-- Run a sequence of transition operations, each with its own fault
injection and timestamp. -/
def runTransitions (db : List Item) :
    List (TransitionOp × Faults × String) → List Item
  | [] => db
  | (op, faults, now) :: rest =>
      runTransitions (applyTransition faults now db op) rest

/-- Number of rows with status `current`. -/
def currentCount (db : List Item) : Nat :=
  db.countP fun it => it.status = "current"

/-- Invariant I1: at most one row is `current`. -/
def atMostOneCurrent (db : List Item) : Prop := currentCount db ≤ 1

/-- Row ids are pairwise distinct (the primary key of the store). -/
def uniqueIds (db : List Item) : Prop := (db.map fun it => it.id).Nodup

instance (db : List Item) : Decidable (atMostOneCurrent db) := by
  unfold atMostOneCurrent; infer_instance

instance (db : List Item) : Decidable (uniqueIds db) := by
  unfold uniqueIds; infer_instance

/-! ### Store-level helper lemmas -/

/-- Mapping an id-preserving function over the store keeps `uniqueIds`. -/
theorem uniqueIds_map (db : List Item) (f : Item → Item)
    (hid : ∀ it, (f it).id = it.id) (h : uniqueIds db) :
    uniqueIds (db.map f) := by
  unfold uniqueIds at *
  rw [List.map_map]
  have : (fun it => it.id) ∘ f = fun it => it.id := funext fun it => hid it
  rwa [this]

/-- With pairwise-distinct ids, filtering the store by the id of a member yields
exactly that member. -/
theorem filter_id_singleton (db : List Item) (a : Item)
    (huniq : uniqueIds db) (ha : a ∈ db) :
    (db.filter fun it => it.id = a.id) = [a] := by
  induction db with
  | nil => cases ha
  | cons b t ih =>
      unfold uniqueIds at huniq
      rw [List.map_cons, List.nodup_cons] at huniq
      obtain ⟨hbnot, hnodup⟩ := huniq
      rcases List.mem_cons.mp ha with hab | hat
      · subst hab
        rw [List.filter_cons_of_pos (by simp)]
        have : (t.filter fun it => it.id = a.id) = [] := by
          rw [List.filter_eq_nil_iff]
          intro x hx
          simp only [decide_eq_true_eq]
          intro hxa
          exact hbnot (hxa ▸ List.mem_map_of_mem (fun it => it.id) hx)
        rw [this]
      · have hba : ¬ b.id = a.id := by
          intro hb
          exact hbnot (hb ▸ List.mem_map_of_mem (fun it => it.id) hat)
        rw [List.filter_cons_of_neg (by simpa), ih hnodup hat]

/-- Running `updateById` on the id of a member row (ids unique, patch id-preserving):
the call succeeds with the patched row and patches exactly that row. -/
theorem updateById_of_mem (db : List Item) (a : Item) (f : Item → Item)
    (hid : ∀ it, (f it).id = it.id) (huniq : uniqueIds db) (ha : a ∈ db) :
    updateById db a.id f =
      (.ok (f a), db.map fun it => if it.id = a.id then f it else it) := by
  unfold updateById
  have hfm : ((db.map fun it => if it.id = a.id then f it else it).filter
      fun it => it.id = a.id) = [f a] := by
    rw [List.filter_map]
    have hcomp : ((fun it => decide (it.id = a.id)) ∘
        fun it => if it.id = a.id then f it else it) =
        fun it => decide (it.id = a.id) := by
      funext it
      by_cases h : it.id = a.id
      · simp [h, hid]
      · simp [h]
    rw [hcomp, filter_id_singleton db a huniq ha]
    simp
  simp only [updateById]
  rw [hfm]

/-- With pairwise-distinct ids, at most one row matches a given id. -/
theorem countP_id_le_one (db : List Item) (tid : String)
    (huniq : uniqueIds db) :
    (db.countP fun it => it.id = tid) ≤ 1 := by
  induction db with
  | nil => simp
  | cons b t ih =>
      unfold uniqueIds at huniq
      rw [List.map_cons, List.nodup_cons] at huniq
      obtain ⟨hbnot, hnodup⟩ := huniq
      by_cases hb : b.id = tid
      · rw [List.countP_cons_of_pos _ _ (by simpa)]
        have : (t.countP fun it => it.id = tid) = 0 := by
          rw [List.countP_eq_zero]
          intro x hx
          simp only [decide_eq_true_eq]
          intro hxt
          exact hbnot ((hb.trans hxt.symm) ▸
            List.mem_map_of_mem (fun it => it.id) hx)
        omega
      · rw [List.countP_cons_of_neg _ _ (by simpa)]
        exact ih hnodup

/-- A member with status `current`, under I1, is the whole `current`
filter. -/
theorem filter_current_singleton (db : List Item) (a : Item)
    (ha : a ∈ db) (hcur : a.status = "current") (h1 : atMostOneCurrent db) :
    (db.filter fun it => it.status = "current") = [a] := by
  unfold atMostOneCurrent currentCount at h1
  have hmem : a ∈ db.filter fun it => it.status = "current" :=
    List.mem_filter.mpr ⟨ha, by simpa⟩
  rw [List.countP_eq_length_filter] at h1
  match hf : db.filter fun it => it.status = "current" with
  | [] => rw [hf] at hmem; cases hmem
  | [x] =>
      rw [hf] at hmem
      rcases List.mem_singleton.mp hmem with h
      rw [h]
      exact hf
  | x :: y :: r => rw [hf] at h1; simp at h1

/-- Every `current` member equals the unique filtered row. -/
theorem current_eq_of_filter_single (db : List Item) (a : Item)
    (hf : (db.filter fun it => it.status = "current") = [a]) :
    ∀ it ∈ db, it.status = "current" → it = a := by
  intro it hit hcur
  have : it ∈ db.filter fun it => it.status = "current" :=
    List.mem_filter.mpr ⟨hit, by simpa⟩
  rw [hf] at this
  exact List.mem_singleton.mp this

/-! ### Current-count lemmas -/

/-- A pointwise write that never turns a non-`current` row `current` cannot
increase the number of `current` rows. -/
theorem currentCount_map_le (db : List Item) (u : Item → Item)
    (h : ∀ it ∈ db, (u it).status = "current" → it.status = "current") :
    currentCount (db.map u) ≤ currentCount db := by
  unfold currentCount
  rw [List.countP_map]
  exact List.countP_mono_left fun it hit hcur => by
    simp only [Function.comp, decide_eq_true_eq] at hcur ⊢
    exact h it hit hcur

/-- After the demotion write, no row is `current` (the demoted row was the
only one). -/
theorem currentCount_demote (db : List Item) (prev : Item) (ord : Int)
    (now : String)
    (hf : (db.filter fun it => it.status = "current") = [prev]) :
    currentCount (db.map fun it =>
      if it.id = prev.id then
        { it with status := "in_progress", priority_order := ord,
                  updated_at := now }
      else it) = 0 := by
  unfold currentCount
  rw [List.countP_map, List.countP_eq_zero]
  intro it hit
  simp only [Function.comp, decide_eq_true_eq]
  by_cases h : it.id = prev.id
  · simp [h]
  · simp only [if_neg h]
    intro hcur
    exact h (congrArg Item.id
      (current_eq_of_filter_single db prev hf it hit hcur))

/-- After the promotion write, at most one row is `current`, provided every
pre-existing `current` row already carried the target id. -/
theorem currentCount_promote (db : List Item) (tid : String) (now : String)
    (huniq : uniqueIds db)
    (hno : ∀ it ∈ db, it.status = "current" → it.id = tid) :
    currentCount (db.map fun it =>
      if it.id = tid then { it with status := "current", updated_at := now }
      else it) ≤ 1 := by
  unfold currentCount
  rw [List.countP_map]
  calc List.countP ((fun it => decide (it.status = "current")) ∘ fun it =>
        if it.id = tid then { it with status := "current", updated_at := now }
        else it) db
      ≤ db.countP fun it => it.id = tid := by
        refine List.countP_mono_left fun it hit hcur => by
          simp only [Function.comp, decide_eq_true_eq] at hcur ⊢
          by_cases h : it.id = tid
          · exact h
          · simp only [if_neg h] at hcur
            exact hno it hit hcur
    _ ≤ 1 := countP_id_le_one db tid huniq

/-- The store component of `updateById` is always the pointwise patch. -/
theorem updateById_snd (db : List Item) (id : String) (f : Item → Item) :
    (updateById db id f).2 = db.map fun it => if it.id = id then f it else it := by
  simp only [updateById]
  cases h : (db.map fun it => if it.id = id then f it else it).filter
      fun it => it.id = id with
  | nil => rfl
  | cons a t =>
      cases t with
      | nil => rfl
      | cons b r => rfl

/-- A write whose patch never produces status `current` preserves I1,
whether or not the store accepts it. -/
theorem atMostOne_write_nonCurrent (fault : Option String) (db : List Item)
    (id : String) (f : Item → Item) (hf : ∀ it, (f it).status ≠ "current")
    (h1 : atMostOneCurrent db) :
    atMostOneCurrent (updateByIdF fault db id f).2 := by
  cases fault with
  | some msg => exact h1
  | none =>
      show currentCount (updateById db id f).2 ≤ 1
      rw [updateById_snd]
      refine le_trans (currentCount_map_le db _ fun it hit hcur => ?_) h1
      by_cases h : it.id = id
      · rw [if_pos h] at hcur
        exact absurd hcur (hf it)
      · rwa [if_neg h] at hcur

/-- The operation `setItemCurrent` preserves I1 on every control path, including injected
store failures. -/
theorem atMostOne_setItemCurrent (faults : Faults) (now : String)
    (db : List Item) (id : String) (huniq : uniqueIds db)
    (h1 : atMostOneCurrent db) :
    atMostOneCurrent (setItemCurrent faults now db id).2 := by
  have hcc : currentCount db =
      (db.filter fun it => it.status = "current").length := by
    unfold currentCount
    exact List.countP_eq_length_filter _ _
  cases hff : faults.findFault with
  | some msg => simpa [setItemCurrent, hff] using h1
  | none =>
    cases hfc : db.filter fun it => it.status = "current" with
    | nil =>
        -- no current row: straight to the promotion write
        have hz : currentCount db = 0 := by rw [hcc, hfc]; rfl
        have hno : ∀ it ∈ db, it.status = "current" → it.id = id := by
          intro it hit hcur
          have : it ∈ db.filter fun it => it.status = "current" :=
            List.mem_filter.mpr ⟨hit, by simpa⟩
          rw [hfc] at this
          cases this
        simp only [setItemCurrent, hff, findCurrent, hfc]
        cases hwf : faults.writeFault with
        | some msg => simpa [updateByIdF, hwf] using h1
        | none =>
            simp only [updateByIdF]
            cases hup : updateById db id fun it =>
                { it with status := "current", updated_at := now } with
            | mk fst snd =>
                have hsnd : snd = db.map fun it =>
                    if it.id = id then
                      { it with status := "current", updated_at := now }
                    else it := by
                  have := updateById_snd db id fun it =>
                    { it with status := "current", updated_at := now }
                  rw [hup] at this
                  exact this
                cases fst <;>
                  simpa [hsnd] using currentCount_promote db id now huniq hno
    | cons prev rest =>
      cases rest with
      | cons b t => simpa [setItemCurrent, hff, findCurrent, hfc] using h1
      | nil =>
        have hprevdb : prev ∈ db :=
          List.mem_of_mem_filter (hfc ▸ List.mem_singleton_self prev)
        by_cases hpe : prev.id = id
        · -- the target is already current: no demotion, then promote
          have hno : ∀ it ∈ db, it.status = "current" → it.id = id := by
            intro it hit hcur
            rw [current_eq_of_filter_single db prev hfc it hit hcur]
            exact hpe
          simp only [setItemCurrent, hff, findCurrent, hfc, if_pos hpe]
          cases hwf : faults.writeFault with
          | some msg => simpa [updateByIdF, hwf] using h1
          | none =>
              simp only [updateByIdF]
              cases hup : updateById db id fun it =>
                  { it with status := "current", updated_at := now } with
              | mk fst snd =>
                  have hsnd : snd = db.map fun it =>
                      if it.id = id then
                        { it with status := "current", updated_at := now }
                      else it := by
                    have := updateById_snd db id fun it =>
                      { it with status := "current", updated_at := now }
                    rw [hup] at this
                    exact this
                  cases fst <;>
                    simpa [hsnd] using currentCount_promote db id now huniq hno
        · -- a different row is current: demote it, then promote the target
          simp only [setItemCurrent, hff, findCurrent, hfc, if_neg hpe]
          cases hdf : faults.demoteFault with
          | some msg => simpa [updateByIdF, hdf] using h1
          | none =>
              simp only [updateByIdF]
              rw [updateById_of_mem db prev (fun it =>
                { it with
                    status := "in_progress"
                    priority_order :=
                      match minInProgressOrder db with
                      | some m => m - 1
                      | none => 1
                    updated_at := now }) (fun it => rfl) huniq hprevdb]
              have hdem := currentCount_demote db prev
                (match minInProgressOrder db with
                  | some m => m - 1
                  | none => 1) now hfc
              set db1 := db.map fun it =>
                if it.id = prev.id then
                  { it with
                      status := "in_progress"
                      priority_order :=
                        match minInProgressOrder db with
                        | some m => m - 1
                        | none => 1
                      updated_at := now }
                else it with hdb1
              have huniq1 : uniqueIds db1 :=
                uniqueIds_map db _ (fun it => by
                  by_cases h : it.id = prev.id <;> simp [h]) huniq
              have hno1 : ∀ it ∈ db1, it.status = "current" → it.id = id := by
                intro it hit hcur
                exfalso
                have : ¬ (decide (it.status = "current") = true) :=
                  List.countP_eq_zero.mp hdem it hit
                simp [hcur] at this
              cases hwf : faults.writeFault with
              | some msg => simp [updateByIdF, hwf, atMostOneCurrent, hdem]
              | none =>
                  simp only [updateByIdF]
                  cases hup : updateById db1 id fun it =>
                      { it with status := "current", updated_at := now } with
                  | mk fst snd =>
                      have hsnd : snd = db1.map fun it =>
                          if it.id = id then
                            { it with status := "current", updated_at := now }
                          else it := by
                        have := updateById_snd db1 id fun it =>
                          { it with status := "current", updated_at := now }
                        rw [hup] at this
                        exact this
                      cases fst <;>
                        simpa [hsnd] using
                          currentCount_promote db1 id now huniq1 hno1


/-- Derivation shape: `db2` arises from `db` by rewriting each row in place, never changing the
id of any row and never clearing a non-null `completed_at` (the only
`completed_at` a patch may write is the stamp `some now`). -/
def RowShape (now : String) (db db' : List Item) : Prop :=
  ∃ u : Item → Item, db' = db.map u ∧
    (∀ it, (u it).id = it.id) ∧
    (∀ it, (u it).completed_at = it.completed_at ∨
      (u it).completed_at = some now)

theorem rowShape_refl (now : String) (db : List Item) : RowShape now db db :=
  ⟨fun it => it, by simp, fun _ => rfl, fun _ => Or.inl rfl⟩

theorem rowShape_trans (now : String) (db db1 db2 : List Item)
    (h1 : RowShape now db db1) (h2 : RowShape now db1 db2) :
    RowShape now db db2 := by
  obtain ⟨u1, he1, hid1, hc1⟩ := h1
  obtain ⟨u2, he2, hid2, hc2⟩ := h2
  refine ⟨u2 ∘ u1, by simp [he2, he1, List.map_map], fun it => ?_, fun it => ?_⟩
  · simp [Function.comp, hid2, hid1]
  · rcases hc2 (u1 it) with h | h
    · rcases hc1 it with h' | h' <;> simp [Function.comp, h, h']
    · exact Or.inr (by simpa [Function.comp] using h)

theorem rowShape_updateByIdF (fault : Option String) (db : List Item)
    (id : String) (f : Item → Item) (now : String)
    (hid : ∀ it, (f it).id = it.id)
    (hc : ∀ it, (f it).completed_at = it.completed_at ∨
      (f it).completed_at = some now) :
    RowShape now db (updateByIdF fault db id f).2 := by
  cases fault with
  | some msg => exact rowShape_refl now db
  | none =>
      refine ⟨fun it => if it.id = id then f it else it,
        updateById_snd db id f, fun it => ?_, fun it => ?_⟩
      · by_cases h : it.id = id <;> simp [h, hid]
      · by_cases h : it.id = id <;> simp [h, hc, hc it]

/-- Whatever path `setItemCurrent` takes, the store it leaves behind is a
row-preserving rewrite. -/
theorem rowShape_setItemCurrent (faults : Faults) (now : String)
    (db : List Item) (id : String) :
    RowShape now db (setItemCurrent faults now db id).2 := by
  cases hff : faults.findFault with
  | some msg => simpa [setItemCurrent, hff] using rowShape_refl now db
  | none =>
    cases hfc : db.filter fun it => it.status = "current" with
    | nil =>
        simp only [setItemCurrent, hff, findCurrent, hfc]
        cases hup : updateByIdF faults.writeFault db id fun it =>
            { it with status := "current", updated_at := now } with
        | mk fst snd =>
            have hs : RowShape now db snd := by
              have := rowShape_updateByIdF faults.writeFault db id
                (fun it => { it with status := "current", updated_at := now })
                now (fun it => rfl) (fun it => Or.inl rfl)
              rwa [hup] at this
            cases fst <;> exact hs
    | cons prev rest =>
      cases rest with
      | cons b t =>
          simpa [setItemCurrent, hff, findCurrent, hfc] using
            rowShape_refl now db
      | nil =>
        by_cases hpe : prev.id = id
        · simp only [setItemCurrent, hff, findCurrent, hfc, if_pos hpe]
          cases hup : updateByIdF faults.writeFault db id fun it =>
              { it with status := "current", updated_at := now } with
          | mk fst snd =>
              have hs : RowShape now db snd := by
                have := rowShape_updateByIdF faults.writeFault db id
                  (fun it => { it with status := "current", updated_at := now })
                  now (fun it => rfl) (fun it => Or.inl rfl)
                rwa [hup] at this
              cases fst <;> exact hs
        · simp only [setItemCurrent, hff, findCurrent, hfc, if_neg hpe]
          cases hdm : updateByIdF faults.demoteFault db prev.id fun it =>
              { it with
                  status := "in_progress"
                  priority_order :=
                    match minInProgressOrder db with
                    | some m => m - 1
                    | none => 1
                  updated_at := now } with
          | mk dfst dsnd =>
              have hs1 : RowShape now db dsnd := by
                have := rowShape_updateByIdF faults.demoteFault db prev.id
                  (fun it =>
                    { it with
                        status := "in_progress"
                        priority_order :=
                          match minInProgressOrder db with
                          | some m => m - 1
                          | none => 1
                        updated_at := now })
                  now (fun it => rfl) (fun it => Or.inl rfl)
                rwa [hdm] at this
              cases dfst with
              | error e => exact hs1
              | ok x =>
                  dsimp only
                  cases hup : updateByIdF faults.writeFault dsnd id fun it =>
                      { it with status := "current", updated_at := now } with
                  | mk fst snd =>
                      have hs2 : RowShape now dsnd snd := by
                        have := rowShape_updateByIdF faults.writeFault dsnd id
                          (fun it =>
                            { it with status := "current", updated_at := now })
                          now (fun it => rfl) (fun it => Or.inl rfl)
                        rwa [hup] at this
                      cases fst <;> exact rowShape_trans now db dsnd snd hs1 hs2

/-- Every `updateItemStatus` path is a row-preserving rewrite. -/
theorem rowShape_updateItemStatus (faults : Faults) (now : String)
    (db : List Item) (id s : String) :
    RowShape now db (updateItemStatus faults now db id s).2 := by
  unfold updateItemStatus
  split
  · exact rowShape_refl now db
  · split
    · exact rowShape_setItemCurrent faults now db id
    · split
      · dsimp only
        unfold setItemDone
        exact rowShape_updateByIdF _ db id _ now (fun it => rfl)
          (fun it => Or.inr rfl)
      · split
        · dsimp only
          unfold setItemWaiting
          exact rowShape_updateByIdF _ db id _ now (fun it => rfl)
            (fun it => Or.inl rfl)
        · dsimp only
          unfold setItemInProgress
          exact rowShape_updateByIdF _ db id _ now (fun it => rfl)
            (fun it => Or.inl rfl)

/-- Every transition operation is a row-preserving rewrite of the store. -/
theorem rowShape_applyTransition (faults : Faults) (now : String)
    (db : List Item) (op : TransitionOp) :
    RowShape now db (applyTransition faults now db op) := by
  cases op with
  | updateStatus id s => exact rowShape_updateItemStatus faults now db id s
  | current id => exact rowShape_setItemCurrent faults now db id
  | waiting id =>
      unfold applyTransition setItemWaiting
      exact rowShape_updateByIdF _ db id _ now (fun it => rfl)
        (fun it => Or.inl rfl)
  | inProgress id =>
      unfold applyTransition setItemInProgress
      exact rowShape_updateByIdF _ db id _ now (fun it => rfl)
        (fun it => Or.inl rfl)
  | done id =>
      unfold applyTransition setItemDone
      exact rowShape_updateByIdF _ db id _ now (fun it => rfl)
        (fun it => Or.inr rfl)

/-- One transition preserves both the primary-key discipline and I1. -/
theorem transition_invariant_step (faults : Faults) (now : String)
    (db : List Item) (op : TransitionOp) (huniq : uniqueIds db)
    (h1 : atMostOneCurrent db) :
    uniqueIds (applyTransition faults now db op) ∧
      atMostOneCurrent (applyTransition faults now db op) := by
  constructor
  · obtain ⟨u, he, hid, _⟩ := rowShape_applyTransition faults now db op
    rw [he]
    exact uniqueIds_map db u hid huniq
  · cases op with
    | updateStatus id s =>
        show atMostOneCurrent (updateItemStatus faults now db id s).2
        unfold updateItemStatus
        split
        · exact h1
        · split
          · exact atMostOne_setItemCurrent faults now db id huniq h1
          · split
            · dsimp only
              unfold setItemDone
              exact atMostOne_write_nonCurrent _ db id _
                (fun it => by simp) h1
            · split
              · dsimp only
                unfold setItemWaiting
                exact atMostOne_write_nonCurrent _ db id _
                  (fun it => by simp) h1
              · dsimp only
                unfold setItemInProgress
                exact atMostOne_write_nonCurrent _ db id _
                  (fun it => by simp) h1
    | current id => exact atMostOne_setItemCurrent faults now db id huniq h1
    | waiting id =>
        unfold applyTransition setItemWaiting
        exact atMostOne_write_nonCurrent _ db id _ (fun it => by simp) h1
    | inProgress id =>
        unfold applyTransition setItemInProgress
        exact atMostOne_write_nonCurrent _ db id _ (fun it => by simp) h1
    | done id =>
        unfold applyTransition setItemDone
        exact atMostOne_write_nonCurrent _ db id _ (fun it => by simp) h1

/-! ### Fixture rows used by the concrete witnesses -/

/-- Fixture: the current item. -/
def exA : Item :=
  { id := "A", title := "alpha", context := "objectives",
    status := "current", priority_order := 5, updated_at := "t0" }

/-- Fixture: an in-progress item. -/
def exB : Item :=
  { id := "B", title := "beta", context := "research",
    status := "in_progress", priority_order := 3, updated_at := "t0" }

/-- Fixture: another in-progress item. -/
def exC : Item :=
  { id := "C", title := "gamma", context := "needs",
    status := "in_progress", priority_order := 4, updated_at := "t0" }

/-- Fixture: a waiting item. -/
def exW : Item :=
  { id := "W", title := "delta", context := "reminders",
    status := "waiting", priority_order := 9, updated_at := "t0" }

/-- Fixture store: one current, two in-progress, one waiting row. -/
def exDb : List Item := [exA, exB, exC, exW]

/-- Fixture transition sequence: promote, re-promote the current item,
complete, park, with a failing write mixed in. -/
def exOps : List (TransitionOp × Faults × String) :=
  [(.updateStatus "C" "current", {}, "t1"),
   (.current "C", {}, "t2"),
   (.updateStatus "B" "current", { writeFault := some "boom" }, "t3"),
   (.done "B", {}, "t4"),
   (.waiting "W", {}, "t5"),
   (.updateStatus "A" "bogus", {}, "t6")]

/-- C1: for every sequence of status-transition operations
(`updateItemStatus` / `setItemCurrent` / `setItemWaiting` /
`setItemInProgress` / `setItemDone`, with arbitrary injected store
failures) starting from a store with pairwise-distinct ids and at most one
`current` item, the final store again has at most one `current` item; since
the sequence is arbitrary, every intermediate store (a run of a prefix)
satisfies I1 as well. -/
theorem C1_single_current_invariant (db : List Item)
    (ops : List (TransitionOp × Faults × String))
    (huniq : uniqueIds db) (h1 : atMostOneCurrent db) :
    atMostOneCurrent (runTransitions db ops) := by
  induction ops generalizing db with
  | nil => exact h1
  | cons p rest ih =>
      obtain ⟨op, faults, now⟩ := p
      obtain ⟨hu, ho⟩ := transition_invariant_step faults now db op huniq h1
      exact ih (applyTransition faults now db op) hu ho

/-- Witness for C1 at the fixture store and operation sequence. -/
theorem C1_witness :
    (uniqueIds exDb ∧ atMostOneCurrent exDb) ∧
      atMostOneCurrent (runTransitions exDb exOps) :=
  ⟨⟨by decide, by decide⟩,
    C1_single_current_invariant exDb exOps (by decide) (by decide)⟩

/-- A successful `updateById` returns the patch applied to a matching row. -/
theorem updateById_ok_shape (db : List Item) (id : String) (f : Item → Item)
    (it : Item) (h : (updateById db id f).1 = .ok it) :
    ∃ y, y ∈ db ∧ y.id = id ∧ it = f y := by
  simp only [updateById] at h
  cases hflt : (db.map fun x => if x.id = id then f x else x).filter
      fun x => x.id = id with
  | nil => rw [hflt] at h; cases h
  | cons a t =>
      cases t with
      | cons b r => rw [hflt] at h; cases h
      | nil =>
          rw [hflt] at h
          have ha : a = it := by
            have : Except.ok (ε := Err) a = .ok it := h
            cases this
            rfl
          subst ha
          have hmem : a ∈ (db.map fun x =>
              if x.id = id then f x else x).filter fun x => x.id = id := by
            rw [hflt]; exact List.mem_singleton_self a
          obtain ⟨hmap, hid⟩ := List.mem_filter.mp hmem
          obtain ⟨y, hy, hay⟩ := List.mem_map.mp hmap
          simp only [decide_eq_true_eq] at hid
          by_cases hyid : y.id = id
          · exact ⟨y, hy, hyid, by rw [← hay, if_pos hyid]⟩
          · rw [if_neg hyid] at hay
            exact absurd (hay ▸ hid) hyid

/-- Fixture: a completed item. -/
def exDone : Item :=
  { id := "D", title := "eps", context := "objectives", status := "done",
    priority_order := 7, completed_at := some "t0", updated_at := "t0" }

/-- C5 (amended): every transition operation rewrites rows in place and
never resets a non-null `completed_at` to null, and a successful
`setItemDone` stamps `completed_at` with the (non-null) transition time.
The remaining parts of the claim fail on the code (see the
counterexample): nothing stops a transition out of `done`, after which
`completed_at` is non-null while the status is not `done`. -/
theorem C5_completed_at_never_cleared (faults : Faults) (now : String)
    (db : List Item) (op : TransitionOp) :
    (applyTransition faults now db op).length = db.length ∧
    (∀ i (h : i < db.length)
      (h2 : i < (applyTransition faults now db op).length),
      (db.get ⟨i, h⟩).completed_at ≠ none →
      ((applyTransition faults now db op).get ⟨i, h2⟩).completed_at ≠ none) ∧
    (∀ fault id it, (setItemDone fault now db id).1 = .ok it →
      it.completed_at = some now) := by
  obtain ⟨u, he, hid, hc⟩ := rowShape_applyTransition faults now db op
  refine ⟨by rw [he]; exact List.length_map db u, fun i h h2 hnn => ?_,
    fun fault id it hok => ?_⟩
  · have hcast := List.get_of_eq he ⟨i, h2⟩
    suffices hs : (u (db.get ⟨i, h⟩)).completed_at ≠ none by
      rw [hcast, List.get_map]
      exact hs
    rcases hc (db.get ⟨i, h⟩) with hcc | hcc
    · rw [hcc]; exact hnn
    · rw [hcc]; exact Option.some_ne_none now
  · cases fault with
    | some msg => cases hok
    | none =>
        obtain ⟨y, _, _, hfy⟩ := updateById_ok_shape db id _ it hok
        rw [hfy]

/-- Witness for C5 at a store holding one completed row. -/
theorem C5_witness :
    exDone.completed_at ≠ none ∧
      (((applyTransition {} "t9" [exDone] (.waiting "D")).get
        ⟨0, by decide⟩).completed_at ≠ none) :=
  ⟨by decide,
    (C5_completed_at_never_cleared {} "t9" [exDone] (.waiting "D")).2.1
      0 (by decide) (by decide) (by decide)⟩

/-- Counterexample for C5 as stated: `setItemWaiting` on the completed row
moves it out of `done` (done is not terminal) while `completed_at` stays
`some "t0"`, so `completed_at` is non-null with status ≠ `done`. -/
theorem C5_counterexample :
    ((setItemWaiting none "t1" [exDone] "D").2.map fun it =>
      (it.status, it.completed_at)) = [("waiting", some "t0")] := by
  decide

/-- C2: promoting `B` while `A` is current demotes `A` to `in_progress`
with priority order `min(in_progress priority orders before) - 1` (or `1`
when no `in_progress` rows existed), sets `B` to `current` leaving the
own priority order of `B` untouched, reports `A` as the demoted row, and leaves
every other row byte-for-byte unchanged. -/
theorem C2_promotion_demotes_previous (now : String) (db : List Item)
    (A B : Item) (huniq : uniqueIds db) (hA : A ∈ db)
    (hAcur : A.status = "current") (h1 : atMostOneCurrent db)
    (hB : B ∈ db) (hne : B.id ≠ A.id) :
    (setItemCurrent {} now db B.id).1.error = none ∧
    (setItemCurrent {} now db B.id).1.previousCurrentId = some A.id ∧
    { A with
        status := "in_progress"
        priority_order :=
          match minInProgressOrder db with
          | some m => m - 1
          | none => 1
        updated_at := now } ∈ (setItemCurrent {} now db B.id).2 ∧
    { B with status := "current", updated_at := now } ∈
      (setItemCurrent {} now db B.id).2 ∧
    (∀ it ∈ db, it.id ≠ A.id → it.id ≠ B.id →
      it ∈ (setItemCurrent {} now db B.id).2) ∧
    (setItemCurrent {} now db B.id).2 = db.map fun it =>
      if it.id = A.id then
        { it with
            status := "in_progress"
            priority_order :=
              match minInProgressOrder db with
              | some m => m - 1
              | none => 1
            updated_at := now }
      else if it.id = B.id then
        { it with status := "current", updated_at := now }
      else it := by
  have hfc := filter_current_singleton db A hA hAcur h1
  have hAB : ¬ A.id = B.id := fun h => hne h.symm
  have hres : setItemCurrent {} now db B.id =
      (⟨some { B with status := "current", updated_at := now }, none,
        some A.id⟩,
        db.map fun it =>
          if it.id = A.id then
            { it with
                status := "in_progress"
                priority_order :=
                  match minInProgressOrder db with
                  | some m => m - 1
                  | none => 1
                updated_at := now }
          else if it.id = B.id then
            { it with status := "current", updated_at := now }
          else it) := by
    simp only [setItemCurrent, findCurrent, hfc, if_neg hAB, updateByIdF]
    rw [updateById_of_mem db A (fun it =>
      { it with
          status := "in_progress"
          priority_order :=
            match minInProgressOrder db with
            | some m => m - 1
            | none => 1
          updated_at := now }) (fun it => rfl) huniq hA]
    dsimp only
    have huniq1 : uniqueIds (db.map fun it =>
        if it.id = A.id then
          { it with
              status := "in_progress"
              priority_order :=
                match minInProgressOrder db with
                | some m => m - 1
                | none => 1
              updated_at := now }
        else it) :=
      uniqueIds_map db _ (fun it => by by_cases h : it.id = A.id <;> simp [h])
        huniq
    have hu1B : (fun it =>
        if it.id = A.id then
          { it with
              status := "in_progress"
              priority_order :=
                match minInProgressOrder db with
                | some m => m - 1
                | none => 1
              updated_at := now }
        else it) B = B := if_neg (fun h => hAB h.symm)
    have hB1 : B ∈ db.map fun it =>
        if it.id = A.id then
          { it with
              status := "in_progress"
              priority_order :=
                match minInProgressOrder db with
                | some m => m - 1
                | none => 1
              updated_at := now }
        else it := hu1B ▸ List.mem_map_of_mem _ hB
    rw [updateById_of_mem _ B (fun it =>
      { it with status := "current", updated_at := now }) (fun it => rfl)
      huniq1 hB1]
    dsimp only
    rw [List.map_map]
    refine congrArg₂ Prod.mk rfl ?_
    refine List.map_congr_left fun it hit => ?_
    by_cases hx : it.id = A.id
    · have hy : ¬ it.id = B.id := by rw [hx]; exact hAB
      simp [Function.comp, hx, hy, hAB, hne]
    · by_cases hy : it.id = B.id <;> simp [Function.comp, hx, hy, hAB, hne]
  refine ⟨by rw [hres], by rw [hres], ?_, ?_, ?_, by rw [hres]⟩
  · rw [hres]
    exact List.mem_map.mpr ⟨A, hA, by simp⟩
  · rw [hres]
    exact List.mem_map.mpr ⟨B, hB, by simp [hne]⟩
  · intro it hit hnA hnB
    rw [hres]
    exact List.mem_map.mpr ⟨it, hit, by simp [hnA, hnB]⟩

/-- Witness for C2: the scenario of §8 of the specification — items
A(current, 5), B(in_progress, 3), C(in_progress, 4); promoting C demotes A
to in_progress at order 2 and leaves B untouched. -/
theorem C2_witness :
    (uniqueIds exDb ∧ exA ∈ exDb ∧ exA.status = "current" ∧
      atMostOneCurrent exDb ∧ exC ∈ exDb ∧ exC.id ≠ exA.id) ∧
    ({ exA with
        status := "in_progress"
        priority_order := 2
        updated_at := "t1" } ∈ (setItemCurrent {} "t1" exDb exC.id).2 ∧
      { exC with status := "current", updated_at := "t1" } ∈
        (setItemCurrent {} "t1" exDb exC.id).2 ∧
      exB ∈ (setItemCurrent {} "t1" exDb exC.id).2) := by
  have h := C2_promotion_demotes_previous "t1" exDb exA exC (by decide)
    (by decide) (by decide) (by decide) (by decide) (by decide)
  refine ⟨⟨by decide, by decide, by decide, by decide, by decide, by decide⟩,
    ?_, h.2.2.2.1, h.2.2.2.2.1 exB (by decide) (by decide) (by decide)⟩
  have h3 := h.2.2.1
  have hmin : (match minInProgressOrder exDb with
      | some m => m - 1
      | none => 1) = (2 : Int) := by decide
  rw [hmin] at h3
  exact h3

/-- Rows of a unique-id store are determined by their id. -/
theorem eq_of_mem_same_id (db : List Item) (a it : Item)
    (huniq : uniqueIds db) (ha : a ∈ db) (hit : it ∈ db)
    (h : it.id = a.id) : it = a := by
  have : it ∈ db.filter fun x => x.id = a.id :=
    List.mem_filter.mpr ⟨hit, by simpa⟩
  rw [filter_id_singleton db a huniq ha] at this
  exact List.mem_singleton.mp this

/-- C6 (amended): calling `setItemCurrent` (hence also `updateItemStatus`
with target `current`) on the item that is already current succeeds and
demotes nothing; the status and priority order of every row is unchanged and
every other row is untouched — but it is not literally a no-op: the write
is still issued, so the `updated_at` of the target is re-stamped (the store is
unchanged only when `now` happens to equal the `updated_at` of the item). -/
theorem C6_already_current_noop (now : String) (db : List Item) (A : Item)
    (huniq : uniqueIds db) (hA : A ∈ db) (hAcur : A.status = "current")
    (h1 : atMostOneCurrent db) :
    (setItemCurrent {} now db A.id).1.error = none ∧
    (setItemCurrent {} now db A.id).1.previousCurrentId = none ∧
    (setItemCurrent {} now db A.id).2 = db.map (fun it =>
      if it.id = A.id then
        { it with status := "current", updated_at := now }
      else it) ∧
    (∀ it ∈ db, it.id ≠ A.id → it ∈ (setItemCurrent {} now db A.id).2) ∧
    ((setItemCurrent {} now db A.id).2.map fun it =>
        (it.status, it.priority_order)) =
      (db.map fun it => (it.status, it.priority_order)) ∧
    (now = A.updated_at → (setItemCurrent {} now db A.id).2 = db) := by
  have hfc := filter_current_singleton db A hA hAcur h1
  have hres : setItemCurrent {} now db A.id =
      (⟨some { A with status := "current", updated_at := now }, none, none⟩,
        db.map fun it =>
          if it.id = A.id then
            { it with status := "current", updated_at := now }
          else it) := by
    simp only [setItemCurrent, findCurrent, hfc, updateByIdF,
      eq_self_iff_true, if_true]
    rw [updateById_of_mem db A (fun it =>
      { it with status := "current", updated_at := now }) (fun it => rfl)
      huniq hA]
  refine ⟨by rw [hres], by rw [hres], by rw [hres], ?_, ?_, ?_⟩
  · intro it hit hnid
    rw [hres]
    exact List.mem_map.mpr ⟨it, hit, by simp [hnid]⟩
  · rw [hres, List.map_map]
    refine List.map_congr_left fun it hit => ?_
    by_cases h : it.id = A.id
    · have hita : it = A := eq_of_mem_same_id db A it huniq hA hit h
      subst hita
      simp [Function.comp, h, hAcur]
    · simp [Function.comp, h]
  · intro hnow
    rw [hres]
    have : db.map (fun it =>
        if it.id = A.id then
          { it with status := "current", updated_at := now }
        else it) = db.map id := by
      refine List.map_congr_left fun it hit => ?_
      by_cases h : it.id = A.id
      · have hita : it = A := eq_of_mem_same_id db A it huniq hA hit h
        subst hita
        rw [if_pos h, ← hAcur, hnow]
        rfl
      · rw [if_neg h]
        rfl
    rw [this, List.map_id]

/-- Witness for C6 at the fixture store: re-promoting the current row
succeeds, demotes nothing, and leaves the other rows in place. -/
theorem C6_witness :
    (uniqueIds exDb ∧ exA ∈ exDb ∧ exA.status = "current" ∧
      atMostOneCurrent exDb) ∧
    ((setItemCurrent {} "t1" exDb exA.id).1.error = none ∧
      (setItemCurrent {} "t1" exDb exA.id).1.previousCurrentId = none ∧
      exB ∈ (setItemCurrent {} "t1" exDb exA.id).2) := by
  have h := C6_already_current_noop "t1" exDb exA (by decide) (by decide)
    (by decide) (by decide)
  exact ⟨⟨by decide, by decide, by decide, by decide⟩,
    h.1, h.2.1, h.2.2.2.1 exB (by decide) (by decide)⟩

/-- Counterexample for C6 as stated: the call succeeds and demotes nothing,
but the store is NOT left unchanged — the `updated_at` of the target row is
re-stamped by the still-issued write. -/
theorem C6_counterexample :
    (setItemCurrent {} "t1" [exA] "A").1.error = none ∧
    (setItemCurrent {} "t1" [exA] "A").1.previousCurrentId = none ∧
    (setItemCurrent {} "t1" [exA] "A").2 ≠ [exA] := by
  decide

/-- C3 (amended): when the demotion write of the previous current item
fails, `setItemCurrent` returns that store error with the store untouched,
and the promotion write is never attempted (the outcome does not depend on
the fate of the promotion write).  When the demotion succeeds and the promotion
write fails, the operation does not report success: it surfaces the raw
store error together with `previousCurrentId` of the demoted row, and the
store keeps the demotion.  No distinct `PartialTransitionFailure` error
kind exists in the code (see the counterexample). -/
theorem C3_demotion_failure_aborts (now : String) (db : List Item)
    (A : Item) (tid msg : String) (wf wfx : Option String)
    (huniq : uniqueIds db) (hA : A ∈ db) (hAcur : A.status = "current")
    (h1 : atMostOneCurrent db) (hne : tid ≠ A.id) :
    (setItemCurrent ⟨none, some msg, wf⟩ now db tid =
      (⟨none, some (.storeFailure msg), none⟩, db) ∧
    setItemCurrent ⟨none, some msg, wf⟩ now db tid =
      setItemCurrent ⟨none, some msg, wfx⟩ now db tid) ∧
    ((setItemCurrent ⟨none, none, some msg⟩ now db tid).1.error =
      some (.storeFailure msg) ∧
    (setItemCurrent ⟨none, none, some msg⟩ now db tid).1.data = none ∧
    (setItemCurrent ⟨none, none, some msg⟩ now db tid).1.previousCurrentId =
      some A.id ∧
    (setItemCurrent ⟨none, none, some msg⟩ now db tid).2 = db.map fun it =>
      if it.id = A.id then
        { it with
            status := "in_progress"
            priority_order :=
              match minInProgressOrder db with
              | some m => m - 1
              | none => 1
            updated_at := now }
      else it) := by
  have hfc := filter_current_singleton db A hA hAcur h1
  have hAt : ¬ A.id = tid := fun h => hne h.symm
  constructor
  · constructor <;>
      simp only [setItemCurrent, findCurrent, hfc, if_neg hAt, updateByIdF]
  · have hres : setItemCurrent ⟨none, none, some msg⟩ now db tid =
        (⟨none, some (.storeFailure msg), some A.id⟩,
          db.map fun it =>
            if it.id = A.id then
              { it with
                  status := "in_progress"
                  priority_order :=
                    match minInProgressOrder db with
                    | some m => m - 1
                    | none => 1
                  updated_at := now }
            else it) := by
      simp only [setItemCurrent, findCurrent, hfc, if_neg hAt, updateByIdF]
      rw [updateById_of_mem db A (fun it =>
        { it with
            status := "in_progress"
            priority_order :=
              match minInProgressOrder db with
              | some m => m - 1
              | none => 1
            updated_at := now }) (fun it => rfl) huniq hA]
    exact ⟨by rw [hres], by rw [hres], by rw [hres], by rw [hres]⟩

/-- Witness for C3: at the fixture store, a failing demotion write aborts
the whole call with the store untouched, and a failing promotion write
after a successful demotion surfaces the raw error plus the demoted id. -/
theorem C3_witness :
    (uniqueIds exDb ∧ exA ∈ exDb ∧ exA.status = "current" ∧
      atMostOneCurrent exDb ∧ "C" ≠ exA.id) ∧
    (setItemCurrent ⟨none, some "down", some "x"⟩ "t1" exDb "C" =
      (⟨none, some (.storeFailure "down"), none⟩, exDb) ∧
    (setItemCurrent ⟨none, none, some "down"⟩ "t1" exDb "C").1.error =
      some (.storeFailure "down") ∧
    (setItemCurrent ⟨none, none, some "down"⟩ "t1" exDb
      "C").1.previousCurrentId = some "A") := by
  have h := C3_demotion_failure_aborts "t1" exDb exA "C" "down"
    (some "x") (some "y") (by decide) (by decide) (by decide) (by decide)
    (by decide)
  exact ⟨⟨by decide, by decide, by decide, by decide, by decide⟩,
    h.1.1, h.2.1, h.2.2.2.1⟩

/-- Counterexample for C3 as stated: when the demotion has been persisted
and the promotion write fails, the surfaced error is the raw store error,
not a `PartialTransitionFailure`. -/
theorem C3_counterexample :
    (setItemCurrent ⟨none, none, some "boom"⟩ "t1" exDb "C").1.error =
      some (.storeFailure "boom") ∧
    (setItemCurrent ⟨none, none, some "boom"⟩ "t1" exDb "C").1.error ≠
      some .PartialTransitionFailure ∧
    (setItemCurrent ⟨none, none, some "boom"⟩ "t1" exDb "C").2 ≠ exDb := by
  decide

/-- C8 (amended): `setItemDone` marks the row done and stamps
`completed_at` with the (non-null) transition time; invoking it twice
leaves the row done (idempotent in status), but the second invocation
re-stamps `completed_at` with its own timestamp, discarding the first. -/
theorem C8_done_restamps (t1 t2 : String) (db : List Item) (id : String) :
    (setItemDone none t1 db id).2 = db.map (fun it =>
      if it.id = id then
        { it with status := "done", completed_at := some t1,
                  updated_at := t1 }
      else it) ∧
    (setItemDone none t2 (setItemDone none t1 db id).2 id).2 =
      db.map fun it =>
        if it.id = id then
          { it with status := "done", completed_at := some t2,
                    updated_at := t2 }
        else it := by
  constructor
  · exact updateById_snd db id _
  · show (updateById (setItemDone none t1 db id).2 id _).2 = _
    rw [updateById_snd]
    show ((updateById db id _).2.map _) = _
    rw [updateById_snd, List.map_map]
    refine List.map_congr_left fun it hit => ?_
    by_cases h : it.id = id <;> simp [Function.comp, h]

/-- Counterexample for C8 as stated: marking the same item done at `"t1"`
and then again at `"t2"` changes `completed_at` from `some "t1"` to
`some "t2"` — the second invocation is not idempotent on `completed_at`. -/
theorem C8_counterexample :
    ((setItemDone none "t1" [exW] "W").2.map fun it => it.completed_at) =
      [some "t1"] ∧
    ((setItemDone none "t2" (setItemDone none "t1" [exW] "W").2 "W").2.map
      fun it => it.completed_at) = [some "t2"] ∧
    (some "t2" : Option String) ≠ some "t1" := by
  decide

/-- C4 evaluated at a failing input (code bug): the cache holds a waiting
item W and two in-progress items B (order 3) and C (order 4); the
in-progress bucket is reordered to [C, B].  The persisted updates are the
dense renumbering 1..N of the bucket and the store leaves W (the other
bucket) completely untouched — but the optimistic update REPLACES the
whole projection cache with just the reordered bucket, so W vanishes from
the cache, violating the claim that items in other buckets keep their
presence in the projection cache. -/
theorem C4_reorder_drops_other_buckets_from_cache :
    (useItemsReorder [exC, exB]).1 =
      [{ exC with priority_order := 1 }, { exB with priority_order := 2 }] ∧
    (∀ it ∈ (useItemsReorder [exC, exB]).1, it.id ≠ exW.id) ∧
    (useItemsReorder [exC, exB]).2 =
      [⟨"C", 1⟩, ⟨"B", 2⟩] ∧
    reorderItems "t1" [exW, exB, exC] (useItemsReorder [exC, exB]).2 =
      [exW, { exB with priority_order := 2, updated_at := "t1" },
        { exC with priority_order := 1, updated_at := "t1" }] := by
  decide

/-- C10: `updateItem` reads only `title`, `notes`, `zone_id`, `due_date`
from the patch — two patches agreeing on those four fields give identical
results, so any other key (status, priority_order, context, completed_at)
is silently ignored rather than rejected; a patch with none of the four
fields yields a validation error and no store write; and every row after
the call keeps its id, status, priority order, context and completion
stamp, the write touching only the four allowed fields plus
`updated_at`. -/
theorem C10_updateItem_safe_fields (now : String) (db : List Item)
    (id : String) (p q : Patch)
    (hagree : p.title = q.title ∧ p.notes = q.notes ∧
      p.zone_id = q.zone_id ∧ p.due_date = q.due_date) :
    updateItem none now db id p = updateItem none now db id q ∧
    (p.title = none ∧ p.notes = none ∧ p.zone_id = none ∧
      p.due_date = none →
      updateItem none now db id p =
        (.error (.validation "No valid fields to update"), db)) ∧
    (¬ (p.title = none ∧ p.notes = none ∧ p.zone_id = none ∧
        p.due_date = none) →
      (updateItem none now db id p).2 = db.map fun it =>
        if it.id = id then
          { it with
              title := p.title.getD it.title
              notes := p.notes.getD it.notes
              zone_id := p.zone_id.getD it.zone_id
              due_date := p.due_date.getD it.due_date
              updated_at := now }
        else it) ∧
    (∀ it2 ∈ (updateItem none now db id p).2, ∃ it0 ∈ db,
      it2.id = it0.id ∧ it2.status = it0.status ∧
      it2.priority_order = it0.priority_order ∧
      it2.context = it0.context ∧ it2.completed_at = it0.completed_at) := by
  obtain ⟨h1, h2, h3, h4⟩ := hagree
  refine ⟨by simp only [updateItem, h1, h2, h3, h4], fun he => ?_, fun hne => ?_,
    fun it2 hit2 => ?_⟩
  · simp only [updateItem, if_pos he]
  · simp only [updateItem, if_neg hne, updateByIdF]
    exact updateById_snd db id _
  · by_cases he : p.title = none ∧ p.notes = none ∧ p.zone_id = none ∧
        p.due_date = none
    · rw [show (updateItem none now db id p).2 = db by
        simp only [updateItem, if_pos he]] at hit2
      exact ⟨it2, hit2, rfl, rfl, rfl, rfl, rfl⟩
    · rw [show (updateItem none now db id p).2 = (updateById db id fun it =>
          { it with
              title := p.title.getD it.title
              notes := p.notes.getD it.notes
              zone_id := p.zone_id.getD it.zone_id
              due_date := p.due_date.getD it.due_date
              updated_at := now }).2 by
          simp only [updateItem, if_neg he, updateByIdF],
        updateById_snd] at hit2
      obtain ⟨it0, hit0, heq⟩ := List.mem_map.mp hit2
      by_cases h : it0.id = id
      · rw [if_pos h] at heq
        exact ⟨it0, hit0, by rw [← heq], by rw [← heq], by rw [← heq],
          by rw [← heq], by rw [← heq]⟩
      · rw [if_neg h] at heq
        exact ⟨it0, hit0, by rw [← heq], by rw [← heq], by rw [← heq],
          by rw [← heq], by rw [← heq]⟩

/-- Witness for C10: a patch carrying `title` together with ignored keys
(`status`, `priority_order`, `completed_at`) behaves exactly like the
patch with those keys absent; the empty patch errors without a write. -/
theorem C10_witness :
    updateItem none "t1" exDb "B"
        { title := some "renamed", status := some "done",
          priority_order := some 99, completed_at := some (some "tX") } =
      updateItem none "t1" exDb "B" { title := some "renamed" } ∧
    updateItem none "t1" exDb "B" { status := some "done" } =
      (.error (.validation "No valid fields to update"), exDb) := by
  have h := C10_updateItem_safe_fields "t1" exDb "B"
    { title := some "renamed", status := some "done",
      priority_order := some 99, completed_at := some (some "tX") }
    { title := some "renamed" } ⟨rfl, rfl, rfl, rfl⟩
  have h2 := C10_updateItem_safe_fields "t1" exDb "B"
    { status := some "done" } { status := some "done" }
    ⟨rfl, rfl, rfl, rfl⟩
  exact ⟨h.1, h2.2.1 ⟨rfl, rfl, rfl, rfl⟩⟩

/-- C7: a draft missing its title (absent or empty) or missing its context
or carrying a context outside {objectives, research, needs, reminders}
fails with a validation error and performs no write.  A valid draft yields
an item with status `waiting` and priority order `max(priority_order) + 1`
(so `1` on an empty store), appended to the store; when no `ref_code` was
supplied the generated one is a 3-letter context prefix, `-`, and the
random 5-character suffix (modelled as the `suffix` input, the output of
`Math.random().toString(36).substring(2, 7).toUpperCase()`). -/
theorem C7_createItem_validation_and_defaults (now newId suffix : String)
    (db : List Item) (draft : Draft) (hsuffix : suffix.length = 5) :
    ((strFalsy draft.title ∨ strFalsy draft.context ∨
        ¬ CONTEXT_VALUES.contains (draft.context.getD "")) →
      (∃ msg, (createItem now newId suffix db draft).1 =
        .error (.validation msg)) ∧
      (createItem now newId suffix db draft).2 = db) ∧
    (∀ t c, draft.title = some t → t ≠ "" → draft.context = some c →
      CONTEXT_VALUES.contains c →
      ∃ it, createItem now newId suffix db draft = (.ok it, db ++ [it]) ∧
        it.status = "waiting" ∧
        it.priority_order = (match maxOrder db with
          | some m => m
          | none => 0) + 1 ∧
        (db = [] → it.priority_order = 1) ∧
        (draft.ref_code = none →
          ∃ pfx, it.ref_code = pfx ++ "-" ++ suffix ∧ pfx.length = 3 ∧
            it.ref_code.length = 9)) := by
  constructor
  · intro h
    by_cases hd : strFalsy draft.title ∨ strFalsy draft.context
    · constructor
      · exact ⟨"title and context are required", by simp [createItem, hd]⟩
      · simp [createItem, hd]
    · have hc : ¬ CONTEXT_VALUES.contains (draft.context.getD "") := by
        rcases h with h | h | h
        · exact absurd (Or.inl h) hd
        · exact absurd (Or.inr h) hd
        · exact h
      have hc2 : draft.context.getD "" ∉ CONTEXT_VALUES := by simpa using hc
      constructor
      · exact ⟨"Invalid context: " ++ draft.context.getD "",
          by simp [createItem, hd, hc2]⟩
      · simp [createItem, hd, hc2]
  · intro t c ht htne hc hcont
    have hcne : c ≠ "" := by
      intro hceq
      rw [hceq] at hcont
      exact absurd hcont (by decide)
    have hd : ¬ (strFalsy draft.title ∨ strFalsy draft.context) := by
      simp [strFalsy, ht, hc, htne, hcne]
    have hgd : draft.context.getD "" = c := by rw [hc]; rfl
    have hres : createItem now newId suffix db draft =
        (.ok
          { id := newId
            title := t
            context := c
            ref_code :=
              match draft.ref_code with
              | some r => if r = "" then generateRefCode c suffix else r
              | none => generateRefCode c suffix
            notes := draft.notes
            zone_id := draft.zone_id
            due_date := draft.due_date
            status := "waiting"
            priority_order := (match maxOrder db with
              | some m => m
              | none => 0) + 1
            created_at := now
            updated_at := now },
          db ++
            [{ id := newId
               title := t
               context := c
               ref_code :=
                 match draft.ref_code with
                 | some r => if r = "" then generateRefCode c suffix else r
                 | none => generateRefCode c suffix
               notes := draft.notes
               zone_id := draft.zone_id
               due_date := draft.due_date
               status := "waiting"
               priority_order := (match maxOrder db with
                 | some m => m
                 | none => 0) + 1
               created_at := now
               updated_at := now }]) := by
      have hcont2 : c ∈ CONTEXT_VALUES := by simpa using hcont
      simp [createItem, strFalsy, hd, hgd, hcont2, ht, hc, htne, hcne]
    refine ⟨_, hres, rfl, rfl, fun hdb => ?_, fun hrc => ?_⟩
    · subst hdb
      rfl
    · rw [hrc]
      have hcc : c = "objectives" ∨ c = "research" ∨ c = "needs" ∨
          c = "reminders" := by
        simpa [CONTEXT_VALUES] using hcont
      have hlen : ∀ pfx : String, pfx.length = 3 →
          (pfx ++ "-" ++ suffix).length = 9 := by
        intro pfx hp
        rw [String.length_append, String.length_append, hp, hsuffix]
        decide
      rcases hcc with hcc | hcc | hcc | hcc <;> subst hcc
      · exact ⟨"OBJ", by simp [generateRefCode], by decide,
          by simpa [generateRefCode] using hlen "OBJ" (by decide)⟩
      · exact ⟨"RES", by simp [generateRefCode], by decide,
          by simpa [generateRefCode] using hlen "RES" (by decide)⟩
      · exact ⟨"NED", by simp [generateRefCode], by decide,
          by simpa [generateRefCode] using hlen "NED" (by decide)⟩
      · exact ⟨"REM", by simp [generateRefCode], by decide,
          by simpa [generateRefCode] using hlen "REM" (by decide)⟩

/-- Witness for C7: a valid research draft is appended as a waiting item
with order max+1 = 10 and a generated ref code of the prescribed shape; a
draft with a bogus context is rejected without a write. -/
theorem C7_witness :
    ("A3F2K" : String).length = 5 ∧
    (∃ it, createItem "t1" "N" "A3F2K" exDb
        { title := some "new", context := some "research" } =
        (.ok it, exDb ++ [it]) ∧ it.status = "waiting" ∧
        it.priority_order = 10 ∧
        ∃ pfx, it.ref_code = pfx ++ "-" ++ "A3F2K" ∧ pfx.length = 3 ∧
          it.ref_code.length = 9) ∧
    ((∃ msg, (createItem "t1" "N" "A3F2K" exDb
        { title := some "new", context := some "bogus" }).1 =
        .error (.validation msg)) ∧
      (createItem "t1" "N" "A3F2K" exDb
        { title := some "new", context := some "bogus" }).2 = exDb) := by
  have h := (C7_createItem_validation_and_defaults "t1" "N" "A3F2K" exDb
    { title := some "new", context := some "research" } (by decide)).2
    "new" "research" rfl (by decide) rfl (by decide)
  have h2 := (C7_createItem_validation_and_defaults "t1" "N" "A3F2K" exDb
    { title := some "new", context := some "bogus" } (by decide)).1
    (by right; right; decide)
  obtain ⟨it, hres, hst, hord, _, hrc⟩ := h
  refine ⟨by decide, ⟨it, hres, hst, ?_, hrc rfl⟩, h2⟩
  rw [hord]
  decide

/-- Running `findIndex` on a list whose front rejects the predicate finds the
element right after the front. -/
theorem findIndex_append_cons (p : Item → Bool) (l1 l2 : List Item)
    (a : Item) (h1 : ∀ x ∈ l1, p x = false) (h2 : p a = true) :
    findIndex p (l1 ++ a :: l2) = some l1.length := by
  induction l1 with
  | nil => simp [findIndex, h2]
  | cons b t ih =>
      have hb : p b = false := h1 b (List.mem_cons_self b t)
      rw [List.cons_append]
      simp [findIndex, hb,
        ih fun x hx => h1 x (List.mem_cons_of_mem b hx)]

/-- Inserting at the length of the left part lands between the parts. -/
theorem insertIdx_append_cons (l1 r : List Item) (a : Item) :
    List.insertIdx l1.length a (l1 ++ r) = l1 ++ a :: r := by
  induction l1 with
  | nil => rfl
  | cons b t ih =>
      rw [List.cons_append, List.length_cons, List.insertIdx_succ_cons, ih]
      rfl

/-- An in-bounds insertion is a permutation of consing the element. -/
theorem insertIdx_perm_cons (l : List Item) (k : Nat) (x : Item)
    (h : k ≤ l.length) : List.Perm (l.insertIdx k x) (x :: l) := by
  induction l generalizing k with
  | nil =>
      have hk : k = 0 := Nat.le_zero.mp h
      subst hk
      exact List.Perm.refl _
  | cons b t ih =>
      cases k with
      | zero => exact List.Perm.refl _
      | succ n =>
          rw [List.insertIdx_succ_cons]
          exact (List.Perm.cons b (ih n (Nat.le_of_succ_le_succ h))).trans
            (List.Perm.swap x b t)

/-- The call `splice(start, 0, x)` always inserts at an effective index clamped
into the valid range `0..length` — for any `start`, negative included. -/
theorem spliceInsert_shape (l : List Item) (s : Int) (x : Item) :
    ∃ k, k ≤ l.length ∧ spliceInsert l s x = l.insertIdx k x := by
  by_cases h : s < 0
  · exact ⟨((l.length : Int) + s).toNat, by omega, by simp [spliceInsert, h]⟩
  · exact ⟨min s.toNat l.length, Nat.min_le_right _ _,
      by simp [spliceInsert, h]⟩

/-- A splice insertion never drops or duplicates rows. -/
theorem spliceInsert_perm (l : List Item) (s : Int) (x : Item) :
    List.Perm (spliceInsert l s x) (x :: l) := by
  obtain ⟨k, hk, he⟩ := spliceInsert_shape l s x
  rw [he]
  exact insertIdx_perm_cons l k x hk

/-- C9: a reorder request never fails — `splice` clamps any effective
index (including the `-1` that `findIndex` yields when the target item is
not in the bucket) into the valid range, and the produced sequence is a
permutation of the dragged item plus every other row of the bucket;
dropping an item onto its successor (moving it to its own position)
reproduces the bucket order identically. -/
theorem C9_reorder_clamps_and_noop :
    (∀ (l : List Item) (s : Int) (x : Item),
      ∃ k, k ≤ l.length ∧ spliceInsert l s x = l.insertIdx k x) ∧
    (∀ (items : List Item) (draggedItem : Item)
      (targetItemId status : String),
      List.Perm (handleReorder items draggedItem targetItemId status)
        (draggedItem ::
          (sortBoard (items.filter fun it => it.status = status)).filter
            fun it => ¬ it.id = draggedItem.id)) ∧
    (∀ (items : List Item) (draggedItem target : Item) (status : String)
      (l1 l2 : List Item),
      uniqueIds (sortBoard (items.filter fun it => it.status = status)) →
      sortBoard (items.filter fun it => it.status = status) =
        l1 ++ draggedItem :: target :: l2 →
      handleReorder items draggedItem target.id status =
        l1 ++ draggedItem :: target :: l2) := by
  refine ⟨spliceInsert_shape, ?_, ?_⟩
  · intro items draggedItem targetItemId status
    exact spliceInsert_perm _ _ _
  · intro items draggedItem target status l1 l2 hnodup hsorted
    unfold uniqueIds at hnodup
    rw [hsorted, List.map_append, List.map_cons, List.map_cons] at hnodup
    obtain ⟨hn1, hn2, hdisj⟩ := List.nodup_append.mp hnodup
    rw [List.nodup_cons] at hn2
    obtain ⟨hd1, hn3⟩ := hn2
    have hbt : ¬ target.id = draggedItem.id := by
      intro h
      exact hd1 (by rw [← h]; exact List.mem_cons_self _ _)
    have hl2d : ∀ x ∈ l2, ¬ x.id = draggedItem.id := by
      intro x hx h
      exact hd1 (List.mem_cons.mpr (Or.inr (h ▸
        List.mem_map_of_mem (fun it => it.id) hx)))
    have hl1d : ∀ x ∈ l1, ¬ x.id = draggedItem.id := by
      intro x hx h
      exact hdisj (List.mem_map_of_mem (fun it => it.id) hx)
        (by rw [h]; exact List.mem_cons_self _ _)
    have hl1t : ∀ x ∈ l1, ¬ x.id = target.id := by
      intro x hx h
      refine hdisj (List.mem_map_of_mem (fun it => it.id) hx) ?_
      rw [h]
      exact List.mem_cons.mpr (Or.inr (List.mem_cons_self _ _))
    have hwd : (l1 ++ draggedItem :: target :: l2).filter
        (fun it => ¬ it.id = draggedItem.id) = l1 ++ target :: l2 := by
      rw [List.filter_append]
      have hfl1 : l1.filter (fun it => ¬ it.id = draggedItem.id) = l1 :=
        List.filter_eq_self.mpr fun x hx => by simpa using hl1d x hx
      have hfl2 : l2.filter (fun it => ¬ it.id = draggedItem.id) = l2 :=
        List.filter_eq_self.mpr fun x hx => by simpa using hl2d x hx
      rw [hfl1, List.filter_cons_of_neg (by simp),
        List.filter_cons_of_pos (by simpa using hbt), hfl2]
    have hfi : findIndex (fun it => it.id = target.id)
        (l1 ++ target :: l2) = some l1.length :=
      findIndex_append_cons _ l1 l2 target
        (fun x hx => by simpa using hl1t x hx) (by simp)
    simp only [handleReorder, hsorted, hwd, hfi]
    simp only [spliceInsert]
    rw [if_neg (by omega)]
    have ht1 : ((l1.length : Int)).toNat = l1.length := Int.toNat_natCast _
    have ht2 : min l1.length (l1 ++ target :: l2).length = l1.length :=
      Nat.min_eq_left (by simp)
    rw [ht1, ht2]
    exact insertIdx_append_cons l1 (target :: l2) draggedItem

/-- Witness for C9: in the bucket [B(3), C(4)], dropping B onto C keeps
the bucket identical — a same-position move is a no-op. -/
theorem C9_witness :
    (uniqueIds (sortBoard ([exB, exC].filter
        fun it => it.status = "in_progress")) ∧
      sortBoard ([exB, exC].filter fun it => it.status = "in_progress") =
        [exB, exC]) ∧
    handleReorder [exB, exC] exB exC.id "in_progress" = [exB, exC] := by
  have h := C9_reorder_clamps_and_noop.2.2 [exB, exC] exB exC
    "in_progress" [] [] (by decide) (by decide)
  exact ⟨⟨by decide, by decide⟩, h⟩
